import Mathlib

deriving instance DecidableEq for Except

/-!
Shallow embedding of the format-driven GATT marshaller of
`src/bleak/backends/marshall2904.py` (the authoritative variant of the two
near-duplicate modules: it is the one with explicit little-endian struct
formats and implemented exponent scaling; `src/bleak/backends/characteristic.py`
holds an older near-duplicate).

Modelling conventions:
  * a Python `bytes` object is a `List (Fin 256)`;
  * a Python `str` is a `List Nat` of Unicode code points;
  * Python `float` arithmetic is modelled exactly over `ℚ` (with explicit
    `inf`/`nan` values); IEEE bit patterns are decoded exactly, and packing a
    rational that is not exactly representable is reported as an explicit
    error rather than rounded;
  * exceptions raised by the Python code are the `Except` error branch.
-/

namespace Bleak2904

abbrev Byte := Fin 256

/-- Exceptions that the embedded Python code can raise. -/
inductive PyError where
  /-- `NameError`: an undefined name was referenced (`sys` is used but never
  imported in `marshall2904.py`). -/
  | nameError
  /-- `TypeError` (also stands in for `AttributeError` on a wrong receiver). -/
  | typeError
  /-- `ValueError` (e.g. `int()` of a non-numeric string or of `nan`). -/
  | valueError
  /-- `struct.error`: wrong buffer size for unpack, or out-of-range / wrongly
  typed argument for pack. -/
  | structError
  /-- `AssertionError` from a failed `assert`. -/
  | assertionError
  /-- `OverflowError` (e.g. `int()` of an infinity, float pack overflow). -/
  | overflowError
  /-- `UnicodeEncodeError` from `str.encode('utf8')` on a lone surrogate. -/
  | unicodeEncodeError
  /-- `UnicodeDecodeError` from `bytes.decode('utf8')` on invalid UTF-8. -/
  | unicodeDecodeError
  /-- Packing a float whose exact rational value is not representable at the
  target width: CPython would round to nearest; rounding is not modelled
  (no claim under proof packs such a value). -/
  | inexactFloat
  deriving DecidableEq, Repr

/-- A Python float: CPython doubles are modelled as exact rationals plus the
special values `inf`/`-inf`/`nan`. -/
inductive PyFloat where
  | finite (q : ℚ)
  | inf (neg : Bool)
  | nan
  deriving DecidableEq, Repr

/-- A dynamically typed Python value, restricted to the types flowing through
the marshaller: `int`, `bool`, `float`, `str`, `bytes`. -/
inductive PyValue where
  | int (n : ℤ)
  | bool (b : Bool)
  | float (f : PyFloat)
  | str (s : List Nat)
  | bytes (b : List Byte)
  deriving DecidableEq, Repr

/-- Little-endian interpretation of a byte list as a natural number. -/
def leNat : List Byte → Nat
  | [] => 0
  | b :: rest => b.val + 256 * leNat rest

/-- Little-endian encoding of `n` on `w` bytes (the shape produced by
`struct.pack` for the fixed-width formats). -/
def leBytes : Nat → Nat → List Byte
  | 0, _ => []
  | w + 1, n => ⟨n % 256, by omega⟩ :: leBytes w (n / 256)

/-- Python truthiness for the modelled values. -/
def pyTruthy : PyValue → Bool
  | .int n => n ≠ 0
  | .bool b => b
  | .float (.finite q) => q ≠ 0
  | .float (.inf _) => true
  | .float .nan => true
  | .str s => s ≠ []
  | .bytes b => b ≠ []

/-- Truncation toward zero, the behaviour of Python `int()` on a float. -/
def ratTrunc (q : ℚ) : ℤ := if 0 ≤ q then ⌊q⌋ else -⌊-q⌋

/-- Value of a digit string (code points `'0'..'9'`), if well formed. -/
def digitsVal (s : List Nat) : Option Nat :=
  if s ≠ [] ∧ s.all (fun c => 48 ≤ c ∧ c ≤ 57) then
    some (s.foldl (fun a c => a * 10 + (c - 48)) 0)
  else none

/-- Python `int(x)`.  Strings: plain decimal with optional leading minus
(whitespace, `+`, and underscores are not modelled; unused here). -/
def pyInt : PyValue → Except PyError PyValue
  | .int n => .ok (.int n)
  | .bool b => .ok (.int (if b then 1 else 0))
  | .float (.finite q) => .ok (.int (ratTrunc q))
  | .float (.inf _) => .error .overflowError
  | .float .nan => .error .valueError
  | .str (45 :: rest) =>
      match digitsVal rest with
      | some n => .ok (.int (-(n : ℤ)))
      | none => .error .valueError
  | .str s =>
      match digitsVal s with
      | some n => .ok (.int (n : ℤ))
      | none => .error .valueError
  | .bytes _ => .error .typeError

/-- Python `float(x)` (numeric-string parsing is not modelled; unused here). -/
def pyFloat : PyValue → Except PyError PyValue
  | .float f => .ok (.float f)
  | .int n => .ok (.float (.finite (n : ℚ)))
  | .bool b => .ok (.float (.finite (if b then 1 else 0)))
  | .str _ => .error .valueError
  | .bytes _ => .error .typeError

/-- Python `bytes(x)`: identity on bytes, and for an integer `n ≥ 0` a fresh
zero-filled sequence of length `n` (`bool` counts as an integer). -/
def pyBytes : PyValue → Except PyError (List Byte)
  | .bytes b => .ok b
  | .int n => if 0 ≤ n then .ok (List.replicate n.toNat 0) else .error .valueError
  | .bool b => .ok (List.replicate (if b then 1 else 0) 0)
  | .str _ => .error .typeError
  | .float _ => .error .typeError

/-- Is `n` a Unicode scalar value (a code point that is not a surrogate)?
Exactly these are encodable by `str.encode('utf8')`. -/
def validCp (n : Nat) : Bool := n < 0x110000 && !(0xD800 ≤ n && n < 0xE000)

/-- UTF-8 encoding of one scalar value (1–4 bytes by range). -/
def utf8EncodeCp (n : Nat) : List Byte :=
  if h1 : n < 0x80 then [⟨n, by omega⟩]
  else if h2 : n < 0x800 then
    [⟨0xC0 + n / 64, by omega⟩, ⟨0x80 + n % 64, by omega⟩]
  else if h3 : n < 0x10000 then
    [⟨0xE0 + n / 4096, by omega⟩, ⟨0x80 + n / 64 % 64, by omega⟩,
     ⟨0x80 + n % 64, by omega⟩]
  else if h4 : n < 0x110000 then
    [⟨0xF0 + n / 262144, by omega⟩, ⟨0x80 + n / 4096 % 64, by omega⟩,
     ⟨0x80 + n / 64 % 64, by omega⟩, ⟨0x80 + n % 64, by omega⟩]
  else []  -- unreachable: Python str code points are below 0x110000

/-- One step of the strict UTF-8 decoder: decode the scalar starting at `b0`,
returning it and the bytes that follow it.  Rejects continuation-byte starts,
overlong encodings, surrogates (the `0xED` row) and values beyond U+10FFFF
(the `0xF4` row), like `bytes.decode('utf8')`. -/
def utf8DecodeOne (b0 : Byte) (rest : List Byte) : Option (Nat × List Byte) :=
  if b0.val < 0x80 then some (b0.val, rest)
  else if b0.val < 0xC2 then none
  else if b0.val < 0xE0 then
    match rest with
    | b1 :: rest2 =>
      if 0x80 ≤ b1.val ∧ b1.val < 0xC0 then
        some ((b0.val - 0xC0) * 64 + (b1.val - 0x80), rest2)
      else none
    | [] => none
  else if b0.val < 0xF0 then
    match rest with
    | b1 :: b2 :: rest3 =>
      if (if b0.val = 0xE0 then 0xA0 else 0x80) ≤ b1.val ∧
          b1.val < (if b0.val = 0xED then 0xA0 else 0xC0) ∧
          0x80 ≤ b2.val ∧ b2.val < 0xC0 then
        some ((b0.val - 0xE0) * 4096 + (b1.val - 0x80) * 64 + (b2.val - 0x80), rest3)
      else none
    | _ => none
  else if b0.val < 0xF5 then
    match rest with
    | b1 :: b2 :: b3 :: rest4 =>
      if (if b0.val = 0xF0 then 0x90 else 0x80) ≤ b1.val ∧
          b1.val < (if b0.val = 0xF4 then 0x90 else 0xC0) ∧
          0x80 ≤ b2.val ∧ b2.val < 0xC0 ∧ 0x80 ≤ b3.val ∧ b3.val < 0xC0 then
        some ((b0.val - 0xF0) * 262144 + (b1.val - 0x80) * 4096 +
          (b2.val - 0x80) * 64 + (b3.val - 0x80), rest4)
      else none
    | _ => none
  else none

set_option maxRecDepth 4000 in
/-- A decode step leaves at most the following bytes. -/
theorem utf8DecodeOne_length (b0 : Byte) (rest : List Byte) (n : Nat)
    (rem : List Byte) (h : utf8DecodeOne b0 rest = some (n, rem)) :
    rem.length ≤ rest.length := by
  unfold utf8DecodeOne at h
  repeat' split at h
  all_goals cases h
  all_goals simp
  all_goals omega

/-- Strict UTF-8 decoder (the behaviour of `bytes.decode('utf8')`): the code
points, or `none` on invalid input. -/
def utf8DecodeList (l : List Byte) : Option (List Nat) :=
  match l with
  | [] => some []
  | b0 :: rest =>
    match h : utf8DecodeOne b0 rest with
    | some (n, rem) => (utf8DecodeList rem).map (n :: ·)
    | none => none
termination_by l.length
decreasing_by
  simp only [List.length_cons]
  have := utf8DecodeOne_length _ _ _ _ h
  omega

/-- `def str2bytes(s): return s.encode('utf8')` (marshall2904.py, line 14). -/
def str2bytes (s : List Nat) : Except PyError (List Byte) :=
  if s.all validCp then .ok ((s.map utf8EncodeCp).flatten)
  else .error .unicodeEncodeError

/-- `def bytes2str(b): return b.decode('utf8')` (marshall2904.py, line 17). -/
def bytes2str (b : List Byte) : Except PyError (List Nat) :=
  match utf8DecodeList b with
  | some cps => .ok cps
  | none => .error .unicodeDecodeError

/-- The struct format characters appearing in `Table_2904_bytes_format`
(all used with the `<` little-endian prefix). -/
inductive NumFmt where
  | c_bool  -- '<?'
  | c_B     -- '<B'
  | c_H     -- '<H'
  | c_I     -- '<I'
  | c_Q     -- '<Q'
  | c_b     -- '<b'
  | c_h     -- '<h'
  | c_i     -- '<i'
  | c_f     -- '<f'
  | c_d     -- '<d'
  deriving DecidableEq, Repr

/-- `struct.calcsize` of each format (with `<` there is no padding). -/
def NumFmt.width : NumFmt → Nat
  | .c_bool => 1 | .c_B => 1 | .c_H => 2 | .c_I => 4 | .c_Q => 8
  | .c_b => 1 | .c_h => 2 | .c_i => 4 | .c_f => 4 | .c_d => 8

/-- Two's-complement reading of a `w`-byte little-endian value. -/
def toSigned (w : Nat) (n : Nat) : ℤ :=
  if n < 256 ^ w / 2 then (n : ℤ) else (n : ℤ) - (256 : ℤ) ^ w

/-- Decode a 32-bit IEEE-754 bit pattern into a `PyFloat` (exact). -/
def decodeF32 (n : Nat) : PyFloat :=
  let s : Nat := n / 2 ^ 31 % 2
  let e : Nat := n / 2 ^ 23 % 2 ^ 8
  let m : Nat := n % 2 ^ 23
  if e = 255 then (if m = 0 then .inf (s = 1) else .nan)
  else
    .finite ((if s = 1 then -1 else 1) *
      (if e = 0 then (m : ℚ) / 2 ^ 149 else ((2 ^ 23 + m : ℚ) * 2 ^ e) / 2 ^ 150))

/-- Decode a 64-bit IEEE-754 bit pattern into a `PyFloat` (exact). -/
def decodeF64 (n : Nat) : PyFloat :=
  let s : Nat := n / 2 ^ 63 % 2
  let e : Nat := n / 2 ^ 52 % 2 ^ 11
  let m : Nat := n % 2 ^ 52
  if e = 2047 then (if m = 0 then .inf (s = 1) else .nan)
  else
    .finite ((if s = 1 then -1 else 1) *
      (if e = 0 then (m : ℚ) / 2 ^ 1074 else ((2 ^ 52 + m : ℚ) * 2 ^ e) / 2 ^ 1075))

/-- Encode an exact rational as an IEEE bit pattern with `frac` fraction bits
and exponent field at most `emax`, or fail: `.overflowError` above the finite
range, `.inexactFloat` when the value is not exactly representable
(CPython would round; rounding is not modelled, nothing proved packs such a
value).  `scale` must be `2 ^ (bias - 1 + frac)`. -/
def encFloatBits (frac emax : Nat) (scale : ℚ) (q : ℚ) : Except PyError Nat :=
  if q = 0 then .ok 0
  else
    let N : ℚ := |q| * scale
    if N.den = 1 then
      let Nn : Nat := N.num.toNat
      if Nn < 2 ^ frac then .ok Nn    -- subnormal (exponent field 0)
      else
        let j := Nat.log2 Nn
        if 2 ^ (j - frac) ∣ Nn then
          let M := Nn / 2 ^ (j - frac)
          let E := j - frac + 1
          if E ≤ emax then .ok (E * 2 ^ frac + (M - 2 ^ frac))
          else .error .overflowError
        else .error .inexactFloat
    else .error .inexactFloat

/-- Bit pattern written by `struct.pack` for a `PyFloat` at 32 bits. -/
def encF32 : PyFloat → Except PyError Nat
  | .nan => .ok 0x7FC00000
  | .inf neg => .ok (if neg then 0xFF800000 else 0x7F800000)
  | .finite q =>
      (encFloatBits 23 254 (2 ^ 149) |q|).map
        (fun bits => (if q < 0 then 2 ^ 31 else 0) + bits)

/-- Bit pattern written by `struct.pack` for a `PyFloat` at 64 bits. -/
def encF64 : PyFloat → Except PyError Nat
  | .nan => .ok 0x7FF8000000000000
  | .inf neg => .ok (if neg then 0xFFF0000000000000 else 0x7FF0000000000000)
  | .finite q =>
      (encFloatBits 52 2046 (2 ^ 1074) |q|).map
        (fun bits => (if q < 0 then 2 ^ 63 else 0) + bits)

/-- `struct` integer-argument coercion: ints and bools are accepted, anything
else is a `struct.error` ("required argument is not an integer"). -/
def asStructInt : PyValue → Except PyError ℤ
  | .int n => .ok n
  | .bool b => .ok (if b then 1 else 0)
  | _ => .error .structError

/-- `struct` float-argument coercion for `f`/`d` (numbers are accepted). -/
def asStructFloat : PyValue → Except PyError PyFloat
  | .float f => .ok f
  | .int n => .ok (.finite (n : ℚ))
  | .bool b => .ok (.finite (if b then 1 else 0))
  | _ => .error .structError

/-- `struct.pack` for an unsigned `w`-byte integer format. -/
def packUInt (w : Nat) (v : PyValue) : Except PyError (List Byte) := do
  let n ← asStructInt v
  if 0 ≤ n ∧ n < (256 : ℤ) ^ w then .ok (leBytes w n.toNat)
  else .error .structError

/-- `struct.pack` for a signed `w`-byte integer format (two's complement). -/
def packSInt (w : Nat) (v : PyValue) : Except PyError (List Byte) := do
  let n ← asStructInt v
  if -((256 : ℤ) ^ w / 2) ≤ n ∧ n < (256 : ℤ) ^ w / 2 then
    .ok (leBytes w (n % (256 : ℤ) ^ w).toNat)
  else .error .structError

/-- `struct.pack(fmt, v)` for one scalar, little-endian. -/
def structPack1 : NumFmt → PyValue → Except PyError (List Byte)
  | .c_bool, v => .ok [if pyTruthy v then 1 else 0]
  | .c_B, v => packUInt 1 v
  | .c_H, v => packUInt 2 v
  | .c_I, v => packUInt 4 v
  | .c_Q, v => packUInt 8 v
  | .c_b, v => packSInt 1 v
  | .c_h, v => packSInt 2 v
  | .c_i, v => packSInt 4 v
  | .c_f, v => do .ok (leBytes 4 (← encF32 (← asStructFloat v)))
  | .c_d, v => do .ok (leBytes 8 (← encF64 (← asStructFloat v)))

/-- `struct.unpack(fmt, bytes)[0]` for one scalar, little-endian; callers have
already checked that `bytes` has the format's width. -/
def structUnpack1 : NumFmt → List Byte → PyValue
  | .c_bool, bytes => .bool (leNat bytes ≠ 0)
  | .c_B, bytes => .int (leNat bytes)
  | .c_H, bytes => .int (leNat bytes)
  | .c_I, bytes => .int (leNat bytes)
  | .c_Q, bytes => .int (leNat bytes)
  | .c_b, bytes => .int (toSigned 1 (leNat bytes))
  | .c_h, bytes => .int (toSigned 2 (leNat bytes))
  | .c_i, bytes => .int (toSigned 4 (leNat bytes))
  | .c_f, bytes => .float (decodeF32 (leNat bytes))
  | .c_d, bytes => .float (decodeF64 (leNat bytes))

/-- The conversion callables stored in the first two slots of each
`Table_2904_bytes_format` entry. -/
inductive Conv where
  | toBool    -- the builtin `bool`
  | toInt     -- the builtin `int`
  | toFloat   -- the builtin `float`
  | s2b       -- `str2bytes`
  | b2s       -- `bytes2str`
  | toBytes   -- the builtin `bytes`
  deriving DecidableEq, Repr

/-- Apply one of the table's conversion callables to a value. -/
def applyConv : Conv → PyValue → Except PyError PyValue
  | .toBool, v => .ok (.bool (pyTruthy v))
  | .toInt, v => pyInt v
  | .toFloat, v => pyFloat v
  | .s2b, .str s => (str2bytes s).map .bytes
  | .s2b, _ => .error .typeError      -- `.encode` on a non-str receiver
  | .b2s, .bytes b => (bytes2str b).map .str
  | .b2s, _ => .error .typeError      -- `.decode` on a non-bytes receiver
  | .toBytes, v => (pyBytes v).map .bytes

/-- One value of `Table_2904_bytes_format`: the tuple
`(frompython, topython, length, format)`. -/
structure FormatEntry where
  frompython : Conv
  topython : Conv
  length : Option Nat
  fmt : Option NumFmt
  deriving DecidableEq, Repr

/-- `Table_2904_bytes_format` (marshall2904.py, lines 20–44), keyed by the
2904 descriptor's format code.  Codes 7, 9, 11, 15, 17 and 19 are commented
out in the source and hence absent. -/
def Table_2904_bytes_format : List (Nat × FormatEntry) := [
  (1, ⟨.toBool, .toBool, some 1, some .c_bool⟩),    -- Boolean
  (2, ⟨.toInt, .toInt, some 1, some .c_B⟩),         -- unsigned 2-bit int
  (3, ⟨.toInt, .toInt, some 1, some .c_B⟩),         -- unsigned 4-bit int
  (4, ⟨.toInt, .toInt, some 1, some .c_B⟩),         -- unsigned 8-bit int
  (5, ⟨.toInt, .toInt, some 2, some .c_H⟩),         -- unsigned 12-bit int
  (6, ⟨.toInt, .toInt, some 2, some .c_H⟩),         -- unsigned 16-bit int
  (8, ⟨.toInt, .toInt, some 4, some .c_I⟩),         -- unsigned 32-bit int
  (10, ⟨.toInt, .toInt, some 8, some .c_Q⟩),        -- unsigned 64-bit int
  (12, ⟨.toInt, .toInt, some 1, some .c_b⟩),        -- 8-bit int
  (13, ⟨.toInt, .toInt, some 2, some .c_h⟩),        -- 12-bit int
  (14, ⟨.toInt, .toInt, some 2, some .c_h⟩),        -- 16-bit int
  (16, ⟨.toInt, .toInt, some 4, some .c_i⟩),        -- 32-bit int
  (18, ⟨.toInt, .toInt, some 8, some .c_Q⟩),        -- 64-bit int ('<Q' in source)
  (20, ⟨.toFloat, .toFloat, some 4, some .c_f⟩),    -- 32-bit float
  (21, ⟨.toFloat, .toFloat, some 8, some .c_d⟩),    -- 64-bit double
  (25, ⟨.s2b, .b2s, none, none⟩),                   -- UTF8 string
  (27, ⟨.toBytes, .toBytes, none, none⟩)            -- Opaque structure
]

/-- A marshaller object: `base` is a plain `BleakGATTMarshaller` (the identity
fallback), `pack` a `BleakGATTPackMarshaller` with the attributes set by its
constructor. -/
inductive BleakGATTMarshaller where
  | base
  | pack (entry : FormatEntry) (exponent : ℤ) (unit : Nat)
  deriving DecidableEq, Repr

/-- `BleakGATTPackMarshaller.__init__` (marshall2904.py, lines 71–77).  When
`exponent != 0` the warning `print(..., file=sys.stderr)` is executed, but the
module never imports `sys`, so the constructor raises `NameError`. -/
def BleakGATTPackMarshaller_init (format : FormatEntry) (exponent : ℤ)
    (unit : Nat) : Except PyError BleakGATTMarshaller :=
  if exponent ≠ 0 then .error .nameError
  else .ok (.pack format exponent unit)

/-- `10.0 ** e` for an integer `e`, exact over `ℚ`. -/
def pow10 : ℤ → ℚ
  | .ofNat k => ((10 ^ k : ℕ) : ℚ)
  | .negSucc k => 1 / ((10 ^ (k + 1) : ℕ) : ℚ)

/-- `data * (10.0 ** e)` (unmarshall's exponent scaling): the result is a
float for every numeric input. -/
def pyScale (v : PyValue) (e : ℤ) : Except PyError PyValue :=
  match v with
  | .int n => .ok (.float (.finite ((n : ℚ) * pow10 e)))
  | .bool b => .ok (.float (.finite ((if b then (1 : ℚ) else 0) * pow10 e)))
  | .float (.finite q) => .ok (.float (.finite (q * pow10 e)))
  | .float (.inf s) => .ok (.float (.inf s))  -- 10.0 ** e > 0
  | .float .nan => .ok (.float .nan)
  | _ => .error .typeError

/-- `data / (10 ** k)` (marshall with positive exponent): true division, the
result is a float for every numeric input. -/
def pyTrueDivPow10 (v : PyValue) (k : Nat) : Except PyError PyValue :=
  match v with
  | .int n => .ok (.float (.finite ((n : ℚ) / 10 ^ k)))
  | .bool b => .ok (.float (.finite ((if b then (1 : ℚ) else 0) / 10 ^ k)))
  | .float (.finite q) => .ok (.float (.finite (q / 10 ^ k)))
  | .float (.inf s) => .ok (.float (.inf s))
  | .float .nan => .ok (.float .nan)
  | _ => .error .typeError

/-- `data * (10 ** k)` (marshall with negative exponent): multiplication by a
Python int, so an int stays an int; a str or bytes is replicated. -/
def pyMulPow10 (v : PyValue) (k : Nat) : Except PyError PyValue :=
  match v with
  | .int n => .ok (.int (n * 10 ^ k))
  | .bool b => .ok (.int ((if b then 1 else 0) * 10 ^ k))
  | .float (.finite q) => .ok (.float (.finite (q * 10 ^ k)))
  | .float (.inf s) => .ok (.float (.inf s))
  | .float .nan => .ok (.float .nan)
  | .str s => .ok (.str (List.flatten (List.replicate (10 ^ k) s)))
  | .bytes b => .ok (.bytes (List.flatten (List.replicate (10 ^ k) b)))

/-- `marshall` (marshall2904.py, lines 79–89 for the pack marshaller, lines
61–63 for the base class, whose `marshall` is `bytes(data)`).  The Python
method returns whatever object the pipeline builds, so the result is a
`PyValue` (`.bytes` on the normal paths). -/
def BleakGATTMarshaller.marshall (m : BleakGATTMarshaller) (data : PyValue) :
    Except PyError PyValue :=
  match m with
  | .base => (pyBytes data).map .bytes
  | .pack entry exponent _unit =>
    match entry.length with
    | none => applyConv entry.frompython data   -- `if not self.length: return self.frompython(data)`
    | some len => do
      let data ←
        if 0 < exponent then pyTrueDivPow10 data exponent.toNat
        else if exponent < 0 then pyMulPow10 data (-exponent).toNat
        else .ok data
      let data ← applyConv entry.frompython data
      let data_bytes ←
        match entry.fmt with
        | some nf => structPack1 nf data
        | none => .error .structError   -- `struct.pack(None, …)`; no such entry exists
      if data_bytes.length = len then .ok (.bytes data_bytes)
      else .error .assertionError       -- `assert len(data_bytes) == self.length`

/-- `unmarshall` (marshall2904.py, lines 91–99 for the pack marshaller, lines
65–67 for the base class, whose `unmarshall` returns its input). -/
def BleakGATTMarshaller.unmarshall (m : BleakGATTMarshaller)
    (data_bytes : List Byte) : Except PyError PyValue :=
  match m with
  | .base => .ok (.bytes data_bytes)
  | .pack entry exponent _unit =>
    match entry.length with
    | none => applyConv entry.topython (.bytes data_bytes)
    | some len =>
      if data_bytes.length = len then do   -- `assert len(data_bytes) == self.length`
        let data :=
          match entry.fmt with
          | some nf => structUnpack1 nf data_bytes
          | none => .bytes data_bytes      -- no fixed-length entry lacks a format
        let data ← applyConv entry.topython data
        if exponent ≠ 0 then pyScale data exponent else .ok data
      else .error .assertionError

/-- `struct.unpack("<BbHBH", d)`: exactly 7 bytes, little-endian, no padding;
yields `(format, exponent, unit, namespace, description)`. -/
def struct_unpack_BbHBH (d : List Byte) :
    Except PyError (Nat × ℤ × Nat × Nat × Nat) :=
  if d.length = 7 then
    .ok (leNat (d.take 1), toSigned 1 (leNat ((d.drop 1).take 1)),
      leNat ((d.drop 2).take 2), leNat ((d.drop 4).take 1),
      leNat ((d.drop 5).take 2))
  else .error .structError

/-- `BleakGATTMarshaller.get_marshaller` (marshall2904.py, lines 49–59).
`Table_uuid_to_marshaller` (a module-level dict, empty at import and filled by
external registration) is passed explicitly as the current registry state; a
registered zero-argument constructor is modelled by the marshaller it builds.
`if descr_2904:` tests the descriptor *object* — `none` here stands for a
falsy (absent) descriptor object, `some d` for a present one; its value bytes
`d` are only obtained afterwards, by the external
`await client.read_gatt_descriptor(...)` read, modelled by attaching the bytes
that read would return.  In particular an empty value `d = []` is still
unpacked (and fails in `struct.unpack`).  For the uuid, `if uuid:` tests the
string itself, so an empty string skips the registry branch. -/
def get_marshaller (Table_uuid_to_marshaller : List (String × BleakGATTMarshaller))
    (descr_2904 : Option (List Byte)) (uuid : Option String) :
    Except PyError BleakGATTMarshaller :=
  match
    (match uuid with
     | some u => if u = "" then none else Table_uuid_to_marshaller.lookup u
     | none => none) with
  | some m => .ok m
  | none =>
    match descr_2904 with
    | some d => do
        let (format, exponent, _unit, _ns, _descr) ← struct_unpack_BbHBH d
        match Table_2904_bytes_format.lookup format with
        | some entry => BleakGATTPackMarshaller_init entry exponent _unit
        | none => .ok .base
    | none => .ok .base

/-! ## Basic lemmas about the little-endian helpers -/

theorem leNat_lt (l : List Byte) : leNat l < 256 ^ l.length := by
  induction l with
  | nil => simp [leNat]
  | cons b rest ih =>
    have hb := b.isLt
    simp only [leNat, List.length_cons, pow_succ]
    omega

theorem leBytes_length (w n : Nat) : (leBytes w n).length = w := by
  induction w generalizing n with
  | zero => rfl
  | succ w ih => simp [leBytes, ih]

theorem leBytes_leNat (l : List Byte) : leBytes l.length (leNat l) = l := by
  induction l with
  | nil => rfl
  | cons b rest ih =>
    have hb := b.isLt
    simp only [List.length_cons, leBytes, leNat]
    refine List.cons_eq_cons.mpr ⟨?_, ?_⟩
    · apply Fin.ext
      show (b.val + 256 * leNat rest) % 256 = b.val
      omega
    · have : (b.val + 256 * leNat rest) / 256 = leNat rest := by omega
      rw [this, ih]

theorem leNat_leBytes (w n : Nat) (h : n < 256 ^ w) : leNat (leBytes w n) = n := by
  induction w generalizing n with
  | zero => simp [leBytes, leNat] at *; omega
  | succ w ih =>
    simp only [leBytes, leNat]
    have hlt : n / 256 < 256 ^ w := by
      have : (256 : ℕ) ^ (w + 1) = 256 ^ w * 256 := pow_succ 256 w
      omega
    rw [ih (n / 256) hlt]
    omega

theorem ok_bind {ε α β : Type} (a : α) (f : α → Except ε β) :
    ((Except.ok a : Except ε α) >>= f) = f a := rfl

theorem error_bind {ε α β : Type} (e : ε) (f : α → Except ε β) :
    ((Except.error e : Except ε α) >>= f) = .error e := rfl

/-- Round trip through an unsigned fixed-width entry at exponent 0. -/
theorem uint_roundtrip (w : Nat) (nf : NumFmt) (u : ℕ) (bytes : List Byte)
    (hlen : bytes.length = w)
    (hunp : structUnpack1 nf bytes = .int (leNat bytes))
    (hpk : structPack1 nf (.int (leNat bytes)) = packUInt w (.int (leNat bytes))) :
    ((BleakGATTMarshaller.pack ⟨.toInt, .toInt, some w, some nf⟩ 0 u).unmarshall bytes >>=
      (BleakGATTMarshaller.pack ⟨.toInt, .toInt, some w, some nf⟩ 0 u).marshall) =
      .ok (.bytes bytes) := by
  subst hlen
  have hm := leNat_lt bytes
  unfold BleakGATTMarshaller.unmarshall
  simp only [if_pos, hunp, applyConv, pyInt]
  unfold BleakGATTMarshaller.marshall
  simp only [Except.bind, applyConv, pyInt, hpk, packUInt, asStructInt]
  have h0 : (0 : ℤ) ≤ (leNat bytes : ℤ) := Int.ofNat_nonneg _
  have h1 : ((leNat bytes : ℤ)) < (256 : ℤ) ^ bytes.length := by exact_mod_cast hm
  simp [hpk, packUInt, asStructInt, h0, h1, ok_bind, Int.toNat_natCast, leBytes_length,
    leBytes_leNat]

/-- Round trip through a signed (two's-complement) fixed-width entry at
exponent 0. -/
theorem sint_roundtrip (w : Nat) (hw : 0 < w) (nf : NumFmt) (u : ℕ) (bytes : List Byte)
    (hlen : bytes.length = w)
    (hunp : structUnpack1 nf bytes = .int (toSigned w (leNat bytes)))
    (hpk : structPack1 nf (.int (toSigned w (leNat bytes))) =
      packSInt w (.int (toSigned w (leNat bytes)))) :
    ((BleakGATTMarshaller.pack ⟨.toInt, .toInt, some w, some nf⟩ 0 u).unmarshall bytes >>=
      (BleakGATTMarshaller.pack ⟨.toInt, .toInt, some w, some nf⟩ 0 u).marshall) =
      .ok (.bytes bytes) := by
  subst hlen
  have hm := leNat_lt bytes
  obtain ⟨H, hH⟩ : ∃ H, 256 ^ bytes.length = 2 * H :=
    dvd_pow (⟨128, rfl⟩ : 2 ∣ 256) (by omega)
  have hcast : ((256 : ℤ) ^ bytes.length) = ((256 ^ bytes.length : ℕ) : ℤ) := by
    push_cast; ring
  have hHc : ((256 : ℤ) ^ bytes.length) = 2 * (H : ℤ) := by
    rw [hcast, hH]; push_cast; ring
  have hdiv : ((256 : ℤ) ^ bytes.length) / 2 = (H : ℤ) := by omega
  have hmI : ((leNat bytes : ℤ)) < (256 : ℤ) ^ bytes.length := by
    rw [hcast]; exact_mod_cast hm
  unfold BleakGATTMarshaller.unmarshall
  simp only [if_pos, hunp, applyConv, pyInt]
  unfold BleakGATTMarshaller.marshall
  simp only [Except.bind, applyConv, pyInt, hpk, packSInt, asStructInt, ok_bind]
  have hrange : -((256 : ℤ) ^ bytes.length / 2) ≤ toSigned bytes.length (leNat bytes) ∧
      toSigned bytes.length (leNat bytes) < (256 : ℤ) ^ bytes.length / 2 := by
    unfold toSigned
    rw [hdiv]
    have hHn : 256 ^ bytes.length / 2 = H := by omega
    rw [hHn]
    by_cases hc : leNat bytes < H <;> simp [hc, hHc] <;> omega
  have hmod : ((toSigned bytes.length (leNat bytes)) % ((256 : ℤ) ^ bytes.length)).toNat =
      leNat bytes := by
    unfold toSigned
    have hsmall : ((leNat bytes : ℤ)) % ((256 : ℤ) ^ bytes.length) = (leNat bytes : ℤ) :=
      Int.emod_eq_of_lt (Int.ofNat_nonneg _) hmI
    by_cases hc : leNat bytes < 256 ^ bytes.length / 2
    · simp [hc, hsmall, Int.toNat_natCast]
    · simp only [hc, if_false]
      have hsub : ((leNat bytes : ℤ) - (256 : ℤ) ^ bytes.length) =
          (leNat bytes : ℤ) + (256 : ℤ) ^ bytes.length * (-1) := by ring
      rw [hsub, Int.add_mul_emod_self_left, hsmall, Int.toNat_natCast]
  simp [hpk, packSInt, asStructInt, hrange.1, hrange.2, hmod, ok_bind, leBytes_length,
    leBytes_leNat]

/-! ## Claim theorems -/

/-- **C1** (code bug).  The claim says resolving descriptor bytes
`06 FE 00 00 00 00 00` (formatCode 6, exponent −2) succeeds and that the
codec's `unmarshall` of `E8 03` is the float 10.00.  In the code, resolution
reaches `BleakGATTPackMarshaller.__init__`, which for a nonzero exponent runs
`print(..., file=sys.stderr)` — but `marshall2904.py` never imports `sys`, so
resolution raises `NameError` instead of succeeding.  The second conjunct
shows the claimed value is exactly what `unmarshall` computes on a codec with
those attributes, so the claim matches the evident intent. -/
theorem C1_resolution_raises_NameError :
    get_marshaller [] (some [6, 254, 0, 0, 0, 0, 0]) none = .error .nameError ∧
    (BleakGATTMarshaller.pack ⟨.toInt, .toInt, some 2, some .c_H⟩ (-2) 0).unmarshall
        [232, 3] = .ok (.float (.finite 10)) :=
  ⟨by decide, by with_unfolding_all rfl⟩

/-- **C2** (confirmed).  Descriptor bytes `06 00 00 00 00 00 00` resolve to the
pack marshaller for format 6 (unsigned 16-bit, exponent 0), and its
`unmarshall` of `E8 03` is the plain Python int 1000 — a single scalar
(`PyValue.int`), not a tuple or any other shape. -/
theorem C2_fmt6_exp0_unmarshalls_scalar_1000 :
    get_marshaller [] (some [6, 0, 0, 0, 0, 0, 0]) none =
      .ok (.pack ⟨.toInt, .toInt, some 2, some .c_H⟩ 0 0) ∧
    (BleakGATTMarshaller.pack ⟨.toInt, .toInt, some 2, some .c_H⟩ 0 0).unmarshall
        [232, 3] = .ok (.int 1000) :=
  ⟨by decide, by decide⟩

/-- **C7** (code bug).  The claim says format 18 is a signed 64-bit integer,
so `unmarshall FF×8 = -1` and `marshall (-1)` succeeds.  The table's own
comment calls 18 a "64-bit int" (the signed family, cf. codes 12/14/16 with
`'<b'/'<h'/'<i'`), but the entry says `'<Q'` — unsigned.  Hence `unmarshall`
of eight `FF` bytes is `2^64 − 1`, and `marshall (-1)` raises `struct.error`
(argument out of range). -/
theorem C7_format18_is_unsigned_in_code :
    Table_2904_bytes_format.lookup 18 = some ⟨.toInt, .toInt, some 8, some .c_Q⟩ ∧
    (BleakGATTMarshaller.pack ⟨.toInt, .toInt, some 8, some .c_Q⟩ 0 0).unmarshall
        (List.replicate 8 255) = .ok (.int (2 ^ 64 - 1)) ∧
    (BleakGATTMarshaller.pack ⟨.toInt, .toInt, some 8, some .c_Q⟩ 0 0).marshall
        (.int (-1)) = .error .structError :=
  ⟨by decide, by decide, by decide⟩

/-- **C10** (confirmed).  The identity fallback's `marshall` is `bytes(data)`:
the identity on a bytes input, but a sequence of `n` zero bytes on a
non-negative int input `n` (so pass-through holds only for bytes callers);
in particular `marshall 2` is `00 00`, not an encoding of 2. -/
theorem C10_base_marshall_is_bytes_builtin :
    (∀ b : List Byte, BleakGATTMarshaller.base.marshall (.bytes b) = .ok (.bytes b)) ∧
    (∀ n : ℕ, BleakGATTMarshaller.base.marshall (.int n) =
      .ok (.bytes (List.replicate n 0))) ∧
    BleakGATTMarshaller.base.marshall (.int 2) ≠ .ok (.bytes [2]) := by
  refine ⟨fun b => rfl, fun n => ?_, by decide⟩
  simp [BleakGATTMarshaller.marshall, pyBytes, Except.map, Int.toNat_natCast]

/-- **C5 counterexample**.  Format 1 (boolean) is a supported format of fixed
width 1, yet with exponent 0 the byte `02` round-trips to `01`:
`unmarshall` yields `True` (any nonzero byte is truthy) and `marshall` packs
`True` as `01`.  So `marshall (unmarshall bytes)) = bytes` fails for a
supported fixed-width format at exponent 0. -/
theorem C5_cex_bool_02_roundtrips_to_01 :
    Table_2904_bytes_format.lookup 1 = some ⟨.toBool, .toBool, some 1, some .c_bool⟩ ∧
    ((BleakGATTMarshaller.pack ⟨.toBool, .toBool, some 1, some .c_bool⟩ 0 0).unmarshall [2] >>=
      (BleakGATTMarshaller.pack ⟨.toBool, .toBool, some 1, some .c_bool⟩ 0 0).marshall) =
      .ok (.bytes [1]) ∧
    (Except.ok (PyValue.bytes [1]) : Except PyError PyValue) ≠ .ok (.bytes [2]) :=
  ⟨by decide, by decide, by decide⟩

/-- **C3** (confirmed).  For every state of `Table_uuid_to_marshaller`, every
registered UUID (UUID strings are nonempty, which is what Python's truthiness
test `if uuid:` relies on) and every descriptor byte sequence whatsoever —
malformed or not — `get_marshaller` returns the registered codec: the registry
hit returns before the descriptor is parsed or even looked at. -/
theorem C3_registry_precedes_descriptor
    (tbl : List (String × BleakGATTMarshaller)) (u : String)
    (m : BleakGATTMarshaller) (d : Option (List Byte))
    (hu : u ≠ "") (hm : tbl.lookup u = some m) :
    get_marshaller tbl d (some u) = .ok m := by
  simp [get_marshaller, hu, hm]

/-- Witness for C3: a registry holding the Battery Level UUID, a malformed
3-byte descriptor; resolution returns the registered codec, no error. -/
theorem C3_registry_precedes_descriptor_witness :
    ("00002a19-0000-1000-8000-00805f9b34fb" ≠ "") ∧
    get_marshaller [("00002a19-0000-1000-8000-00805f9b34fb", .base)]
      (some [1, 2, 3]) (some "00002a19-0000-1000-8000-00805f9b34fb") = .ok .base :=
  ⟨by decide,
   C3_registry_precedes_descriptor _ _ _ _ (by decide) (by decide)⟩

/-- **C4** (confirmed).  With uuid absent or unregistered, every descriptor
byte sequence supplied to resolve: a 7-byte descriptor is decoded little-endian
with no padding as formatCode(u8), exponent(i8, two's complement), unit(u16),
namespace(u8), description(u16); any other length — 0 and 8 included — makes
resolve fail with `struct.error` (the ParseError), raised by
`struct.unpack("<BbHBH", ...)`. -/
theorem C4_seven_byte_layout_and_length_check :
    ∀ (d : List Byte) (u : Option String),
      (d.length = 7 → struct_unpack_BbHBH d =
        .ok ((d.getD 0 0).val,
             (if (d.getD 1 0).val < 128 then ((d.getD 1 0).val : ℤ)
              else ((d.getD 1 0).val : ℤ) - 256),
             (d.getD 2 0).val + 256 * (d.getD 3 0).val,
             (d.getD 4 0).val,
             (d.getD 5 0).val + 256 * (d.getD 6 0).val)) ∧
      (d.length ≠ 7 → get_marshaller [] (some d) u = .error .structError) := by
  intro d u
  constructor
  · intro h7
    rcases d with _ | ⟨b0, _ | ⟨b1, _ | ⟨b2, _ | ⟨b3, _ | ⟨b4, _ | ⟨b5, _ | ⟨b6, _ | ⟨b7, t⟩⟩⟩⟩⟩⟩⟩⟩ <;>
      simp_all [struct_unpack_BbHBH, leNat, toSigned]
  · intro h7
    cases u with
    | none =>
      simp [get_marshaller, struct_unpack_BbHBH, h7]
      rfl
    | some s =>
      by_cases hs : s = "" <;>
        · simp [get_marshaller, hs, struct_unpack_BbHBH, h7]
          rfl

/-- Witness for C4: a 6-byte descriptor (the spec's own scenario) and the
empty descriptor value both raise `struct.error`. -/
theorem C4_seven_byte_layout_witness :
    get_marshaller [] (some [1, 2, 3, 4, 5, 6]) none = .error .structError ∧
    get_marshaller [] (some []) none = .error .structError :=
  ⟨(C4_seven_byte_layout_and_length_check [1, 2, 3, 4, 5, 6] none).2 (by decide),
   (C4_seven_byte_layout_and_length_check [] none).2 (by decide)⟩

set_option maxRecDepth 40000 in
/-- **C5 amended**.  `marshall (unmarshall bytes) = bytes` at exponent 0 holds
for every *integer* format code (2, 3, 4, 5, 6, 8, 10, 12, 13, 14, 16, 18) and
every byte sequence of the format's fixed width; for the boolean format (code
1, also fixed-width) it holds exactly when the byte is `00` or `01` (`bool`
collapses every nonzero byte to `01` — see the counterexample).  The float
formats 20/21 are outside this statement (IEEE NaN re-encoding need not be
byte-identical and floats are modelled exactly over `ℚ`). -/
theorem C5_roundtrip_identity_exp0 :
    (∀ (code : Nat) (entry : FormatEntry) (u : Nat) (bytes : List Byte),
      code ∈ [2, 3, 4, 5, 6, 8, 10, 12, 13, 14, 16, 18] →
      Table_2904_bytes_format.lookup code = some entry →
      entry.length = some bytes.length →
      ((BleakGATTMarshaller.pack entry 0 u).unmarshall bytes >>=
        (BleakGATTMarshaller.pack entry 0 u).marshall) = .ok (.bytes bytes)) ∧
    (∀ b : Byte,
      ((BleakGATTMarshaller.pack ⟨.toBool, .toBool, some 1, some .c_bool⟩ 0 0).unmarshall
          [b] >>=
        (BleakGATTMarshaller.pack ⟨.toBool, .toBool, some 1, some .c_bool⟩ 0 0).marshall) =
        .ok (.bytes [b]) ↔ b.val < 2) := by
  constructor
  · intro code entry u bytes hmem hlook hlen
    fin_cases hmem
    · have he := Option.some.inj ((show Table_2904_bytes_format.lookup 2 =
        some (⟨.toInt, .toInt, some 1, some .c_B⟩ : FormatEntry) from by decide).symm.trans
        hlook)
      subst he
      exact uint_roundtrip 1 .c_B u bytes (Option.some.inj hlen).symm rfl rfl
    · have he := Option.some.inj ((show Table_2904_bytes_format.lookup 3 =
        some (⟨.toInt, .toInt, some 1, some .c_B⟩ : FormatEntry) from by decide).symm.trans
        hlook)
      subst he
      exact uint_roundtrip 1 .c_B u bytes (Option.some.inj hlen).symm rfl rfl
    · have he := Option.some.inj ((show Table_2904_bytes_format.lookup 4 =
        some (⟨.toInt, .toInt, some 1, some .c_B⟩ : FormatEntry) from by decide).symm.trans
        hlook)
      subst he
      exact uint_roundtrip 1 .c_B u bytes (Option.some.inj hlen).symm rfl rfl
    · have he := Option.some.inj ((show Table_2904_bytes_format.lookup 5 =
        some (⟨.toInt, .toInt, some 2, some .c_H⟩ : FormatEntry) from by decide).symm.trans
        hlook)
      subst he
      exact uint_roundtrip 2 .c_H u bytes (Option.some.inj hlen).symm rfl rfl
    · have he := Option.some.inj ((show Table_2904_bytes_format.lookup 6 =
        some (⟨.toInt, .toInt, some 2, some .c_H⟩ : FormatEntry) from by decide).symm.trans
        hlook)
      subst he
      exact uint_roundtrip 2 .c_H u bytes (Option.some.inj hlen).symm rfl rfl
    · have he := Option.some.inj ((show Table_2904_bytes_format.lookup 8 =
        some (⟨.toInt, .toInt, some 4, some .c_I⟩ : FormatEntry) from by decide).symm.trans
        hlook)
      subst he
      exact uint_roundtrip 4 .c_I u bytes (Option.some.inj hlen).symm rfl rfl
    · have he := Option.some.inj ((show Table_2904_bytes_format.lookup 10 =
        some (⟨.toInt, .toInt, some 8, some .c_Q⟩ : FormatEntry) from by decide).symm.trans
        hlook)
      subst he
      exact uint_roundtrip 8 .c_Q u bytes (Option.some.inj hlen).symm rfl rfl
    · have he := Option.some.inj ((show Table_2904_bytes_format.lookup 12 =
        some (⟨.toInt, .toInt, some 1, some .c_b⟩ : FormatEntry) from by decide).symm.trans
        hlook)
      subst he
      exact sint_roundtrip 1 (by norm_num) .c_b u bytes (Option.some.inj hlen).symm rfl rfl
    · have he := Option.some.inj ((show Table_2904_bytes_format.lookup 13 =
        some (⟨.toInt, .toInt, some 2, some .c_h⟩ : FormatEntry) from by decide).symm.trans
        hlook)
      subst he
      exact sint_roundtrip 2 (by norm_num) .c_h u bytes (Option.some.inj hlen).symm rfl rfl
    · have he := Option.some.inj ((show Table_2904_bytes_format.lookup 14 =
        some (⟨.toInt, .toInt, some 2, some .c_h⟩ : FormatEntry) from by decide).symm.trans
        hlook)
      subst he
      exact sint_roundtrip 2 (by norm_num) .c_h u bytes (Option.some.inj hlen).symm rfl rfl
    · have he := Option.some.inj ((show Table_2904_bytes_format.lookup 16 =
        some (⟨.toInt, .toInt, some 4, some .c_i⟩ : FormatEntry) from by decide).symm.trans
        hlook)
      subst he
      exact sint_roundtrip 4 (by norm_num) .c_i u bytes (Option.some.inj hlen).symm rfl rfl
    · have he := Option.some.inj ((show Table_2904_bytes_format.lookup 18 =
        some (⟨.toInt, .toInt, some 8, some .c_Q⟩ : FormatEntry) from by decide).symm.trans
        hlook)
      subst he
      exact uint_roundtrip 8 .c_Q u bytes (Option.some.inj hlen).symm rfl rfl
  · decide

/-- Witness for C5: format 6 (unsigned 16-bit) round-trips `E8 03`. -/
theorem C5_roundtrip_identity_exp0_witness :
    ((6 : Nat) ∈ [2, 3, 4, 5, 6, 8, 10, 12, 13, 14, 16, 18]) ∧
    ((BleakGATTMarshaller.pack ⟨.toInt, .toInt, some 2, some .c_H⟩ 0 0).unmarshall
        [232, 3] >>=
      (BleakGATTMarshaller.pack ⟨.toInt, .toInt, some 2, some .c_H⟩ 0 0).marshall) =
      .ok (.bytes [232, 3]) :=
  ⟨by decide,
   C5_roundtrip_identity_exp0.1 6 _ 0 [232, 3] (by decide) (by decide) (by decide)⟩

/-- **C6** (confirmed).  For the fixed-width numeric codecs, `marshall` scales
the value before packing — dividing by `10^exponent` when the exponent is
positive, multiplying by `10^(-exponent)` when it is negative, and not scaling
at all when it is zero: marshalling a float at exponent `e` equals marshalling
the truncated scaled value at exponent 0 (integer formats, first conjunct), or
the scaled float itself (float formats, second conjunct).  The concrete
scenario — float 10.00, format 6, exponent −2 gives `E8 03` — is the witness
theorem. -/
theorem C6_marshall_scales_before_packing :
    (∀ (code : Nat) (entry : FormatEntry) (e : ℤ) (u : Nat) (q : ℚ),
      code ∈ [2, 3, 4, 5, 6, 8, 10, 12, 13, 14, 16, 18] →
      Table_2904_bytes_format.lookup code = some entry →
      (BleakGATTMarshaller.pack entry e u).marshall (.float (.finite q)) =
        (BleakGATTMarshaller.pack entry 0 u).marshall (.int (ratTrunc
          (if 0 < e then q / (10 : ℚ) ^ e.toNat
           else if e < 0 then q * (10 : ℚ) ^ (-e).toNat
           else q)))) ∧
    (∀ (code : Nat) (entry : FormatEntry) (e : ℤ) (u : Nat) (q : ℚ),
      code ∈ [20, 21] →
      Table_2904_bytes_format.lookup code = some entry →
      (BleakGATTMarshaller.pack entry e u).marshall (.float (.finite q)) =
        (BleakGATTMarshaller.pack entry 0 u).marshall (.float (.finite
          (if 0 < e then q / (10 : ℚ) ^ e.toNat
           else if e < 0 then q * (10 : ℚ) ^ (-e).toNat
           else q)))) := by
  constructor
  · intro code entry e u q hmem hlook
    fin_cases hmem
    · have he := Option.some.inj ((show Table_2904_bytes_format.lookup 2 =
        some (⟨.toInt, .toInt, some 1, some .c_B⟩ : FormatEntry) from by decide).symm.trans
        hlook)
      subst he
      rcases lt_trichotomy 0 e with he | he | he
      · simp [BleakGATTMarshaller.marshall, pyTrueDivPow10, applyConv, pyInt, ok_bind, he,
          asStructInt, not_lt_of_lt]
      · subst he
        simp [BleakGATTMarshaller.marshall, applyConv, pyInt, ok_bind]
      · simp [BleakGATTMarshaller.marshall, pyMulPow10, applyConv, pyInt, ok_bind, he,
          not_lt_of_lt, lt_asymm]
    · have he := Option.some.inj ((show Table_2904_bytes_format.lookup 3 =
        some (⟨.toInt, .toInt, some 1, some .c_B⟩ : FormatEntry) from by decide).symm.trans
        hlook)
      subst he
      rcases lt_trichotomy 0 e with he | he | he
      · simp [BleakGATTMarshaller.marshall, pyTrueDivPow10, applyConv, pyInt, ok_bind, he,
          asStructInt, not_lt_of_lt]
      · subst he
        simp [BleakGATTMarshaller.marshall, applyConv, pyInt, ok_bind]
      · simp [BleakGATTMarshaller.marshall, pyMulPow10, applyConv, pyInt, ok_bind, he,
          not_lt_of_lt, lt_asymm]
    · have he := Option.some.inj ((show Table_2904_bytes_format.lookup 4 =
        some (⟨.toInt, .toInt, some 1, some .c_B⟩ : FormatEntry) from by decide).symm.trans
        hlook)
      subst he
      rcases lt_trichotomy 0 e with he | he | he
      · simp [BleakGATTMarshaller.marshall, pyTrueDivPow10, applyConv, pyInt, ok_bind, he,
          asStructInt, not_lt_of_lt]
      · subst he
        simp [BleakGATTMarshaller.marshall, applyConv, pyInt, ok_bind]
      · simp [BleakGATTMarshaller.marshall, pyMulPow10, applyConv, pyInt, ok_bind, he,
          not_lt_of_lt, lt_asymm]
    · have he := Option.some.inj ((show Table_2904_bytes_format.lookup 5 =
        some (⟨.toInt, .toInt, some 2, some .c_H⟩ : FormatEntry) from by decide).symm.trans
        hlook)
      subst he
      rcases lt_trichotomy 0 e with he | he | he
      · simp [BleakGATTMarshaller.marshall, pyTrueDivPow10, applyConv, pyInt, ok_bind, he,
          asStructInt, not_lt_of_lt]
      · subst he
        simp [BleakGATTMarshaller.marshall, applyConv, pyInt, ok_bind]
      · simp [BleakGATTMarshaller.marshall, pyMulPow10, applyConv, pyInt, ok_bind, he,
          not_lt_of_lt, lt_asymm]
    · have he := Option.some.inj ((show Table_2904_bytes_format.lookup 6 =
        some (⟨.toInt, .toInt, some 2, some .c_H⟩ : FormatEntry) from by decide).symm.trans
        hlook)
      subst he
      rcases lt_trichotomy 0 e with he | he | he
      · simp [BleakGATTMarshaller.marshall, pyTrueDivPow10, applyConv, pyInt, ok_bind, he,
          asStructInt, not_lt_of_lt]
      · subst he
        simp [BleakGATTMarshaller.marshall, applyConv, pyInt, ok_bind]
      · simp [BleakGATTMarshaller.marshall, pyMulPow10, applyConv, pyInt, ok_bind, he,
          not_lt_of_lt, lt_asymm]
    · have he := Option.some.inj ((show Table_2904_bytes_format.lookup 8 =
        some (⟨.toInt, .toInt, some 4, some .c_I⟩ : FormatEntry) from by decide).symm.trans
        hlook)
      subst he
      rcases lt_trichotomy 0 e with he | he | he
      · simp [BleakGATTMarshaller.marshall, pyTrueDivPow10, applyConv, pyInt, ok_bind, he,
          asStructInt, not_lt_of_lt]
      · subst he
        simp [BleakGATTMarshaller.marshall, applyConv, pyInt, ok_bind]
      · simp [BleakGATTMarshaller.marshall, pyMulPow10, applyConv, pyInt, ok_bind, he,
          not_lt_of_lt, lt_asymm]
    · have he := Option.some.inj ((show Table_2904_bytes_format.lookup 10 =
        some (⟨.toInt, .toInt, some 8, some .c_Q⟩ : FormatEntry) from by decide).symm.trans
        hlook)
      subst he
      rcases lt_trichotomy 0 e with he | he | he
      · simp [BleakGATTMarshaller.marshall, pyTrueDivPow10, applyConv, pyInt, ok_bind, he,
          asStructInt, not_lt_of_lt]
      · subst he
        simp [BleakGATTMarshaller.marshall, applyConv, pyInt, ok_bind]
      · simp [BleakGATTMarshaller.marshall, pyMulPow10, applyConv, pyInt, ok_bind, he,
          not_lt_of_lt, lt_asymm]
    · have he := Option.some.inj ((show Table_2904_bytes_format.lookup 12 =
        some (⟨.toInt, .toInt, some 1, some .c_b⟩ : FormatEntry) from by decide).symm.trans
        hlook)
      subst he
      rcases lt_trichotomy 0 e with he | he | he
      · simp [BleakGATTMarshaller.marshall, pyTrueDivPow10, applyConv, pyInt, ok_bind, he,
          asStructInt, not_lt_of_lt]
      · subst he
        simp [BleakGATTMarshaller.marshall, applyConv, pyInt, ok_bind]
      · simp [BleakGATTMarshaller.marshall, pyMulPow10, applyConv, pyInt, ok_bind, he,
          not_lt_of_lt, lt_asymm]
    · have he := Option.some.inj ((show Table_2904_bytes_format.lookup 13 =
        some (⟨.toInt, .toInt, some 2, some .c_h⟩ : FormatEntry) from by decide).symm.trans
        hlook)
      subst he
      rcases lt_trichotomy 0 e with he | he | he
      · simp [BleakGATTMarshaller.marshall, pyTrueDivPow10, applyConv, pyInt, ok_bind, he,
          asStructInt, not_lt_of_lt]
      · subst he
        simp [BleakGATTMarshaller.marshall, applyConv, pyInt, ok_bind]
      · simp [BleakGATTMarshaller.marshall, pyMulPow10, applyConv, pyInt, ok_bind, he,
          not_lt_of_lt, lt_asymm]
    · have he := Option.some.inj ((show Table_2904_bytes_format.lookup 14 =
        some (⟨.toInt, .toInt, some 2, some .c_h⟩ : FormatEntry) from by decide).symm.trans
        hlook)
      subst he
      rcases lt_trichotomy 0 e with he | he | he
      · simp [BleakGATTMarshaller.marshall, pyTrueDivPow10, applyConv, pyInt, ok_bind, he,
          asStructInt, not_lt_of_lt]
      · subst he
        simp [BleakGATTMarshaller.marshall, applyConv, pyInt, ok_bind]
      · simp [BleakGATTMarshaller.marshall, pyMulPow10, applyConv, pyInt, ok_bind, he,
          not_lt_of_lt, lt_asymm]
    · have he := Option.some.inj ((show Table_2904_bytes_format.lookup 16 =
        some (⟨.toInt, .toInt, some 4, some .c_i⟩ : FormatEntry) from by decide).symm.trans
        hlook)
      subst he
      rcases lt_trichotomy 0 e with he | he | he
      · simp [BleakGATTMarshaller.marshall, pyTrueDivPow10, applyConv, pyInt, ok_bind, he,
          asStructInt, not_lt_of_lt]
      · subst he
        simp [BleakGATTMarshaller.marshall, applyConv, pyInt, ok_bind]
      · simp [BleakGATTMarshaller.marshall, pyMulPow10, applyConv, pyInt, ok_bind, he,
          not_lt_of_lt, lt_asymm]
    · have he := Option.some.inj ((show Table_2904_bytes_format.lookup 18 =
        some (⟨.toInt, .toInt, some 8, some .c_Q⟩ : FormatEntry) from by decide).symm.trans
        hlook)
      subst he
      rcases lt_trichotomy 0 e with he | he | he
      · simp [BleakGATTMarshaller.marshall, pyTrueDivPow10, applyConv, pyInt, ok_bind, he,
          asStructInt, not_lt_of_lt]
      · subst he
        simp [BleakGATTMarshaller.marshall, applyConv, pyInt, ok_bind]
      · simp [BleakGATTMarshaller.marshall, pyMulPow10, applyConv, pyInt, ok_bind, he,
          not_lt_of_lt, lt_asymm]
  · intro code entry e u q hmem hlook
    fin_cases hmem
    · have he := Option.some.inj ((show Table_2904_bytes_format.lookup 20 =
        some (⟨.toFloat, .toFloat, some 4, some .c_f⟩ : FormatEntry) from by decide).symm.trans
        hlook)
      subst he
      rcases lt_trichotomy 0 e with he | he | he
      · simp [BleakGATTMarshaller.marshall, pyTrueDivPow10, applyConv, pyFloat, ok_bind, he,
          asStructFloat, not_lt_of_lt]
      · subst he
        simp [BleakGATTMarshaller.marshall, applyConv, pyFloat, ok_bind]
      · simp [BleakGATTMarshaller.marshall, pyMulPow10, applyConv, pyFloat, ok_bind, he,
          not_lt_of_lt, lt_asymm]
    · have he := Option.some.inj ((show Table_2904_bytes_format.lookup 21 =
        some (⟨.toFloat, .toFloat, some 8, some .c_d⟩ : FormatEntry) from by decide).symm.trans
        hlook)
      subst he
      rcases lt_trichotomy 0 e with he | he | he
      · simp [BleakGATTMarshaller.marshall, pyTrueDivPow10, applyConv, pyFloat, ok_bind, he,
          asStructFloat, not_lt_of_lt]
      · subst he
        simp [BleakGATTMarshaller.marshall, applyConv, pyFloat, ok_bind]
      · simp [BleakGATTMarshaller.marshall, pyMulPow10, applyConv, pyFloat, ok_bind, he,
          not_lt_of_lt, lt_asymm]

/-- Witness for C6: marshalling float 10.00 with format 6 and exponent −2
produces the bytes `E8 03`. -/
theorem C6_marshall_scales_before_packing_witness :
    (BleakGATTMarshaller.pack ⟨.toInt, .toInt, some 2, some .c_H⟩ (-2) 0).marshall
      (.float (.finite 10)) = .ok (.bytes [232, 3]) :=
  (C6_marshall_scales_before_packing.1 6 _ (-2) 0 10 (by decide) (by decide)).trans
    (by with_unfolding_all rfl)

/-- `pyScale` succeeds on every numeric (non-str, non-bytes) value. -/
theorem pyScale_numeric_ok (v : PyValue) (e : ℤ)
    (h : (match v with | .str _ => False | .bytes _ => False | _ => True)) :
    ∃ v2, pyScale v e = .ok v2 := by
  cases v with
  | str s => exact absurd h (by simp)
  | bytes b => exact absurd h (by simp)
  | int n => exact ⟨_, rfl⟩
  | bool b => exact ⟨_, rfl⟩
  | float f => rcases f with q | s | _ <;> exact ⟨_, rfl⟩

/-- On a fixed-width table entry, `unmarshall` returns normally whenever the
input has exactly the entry's width. -/
theorem unmarshall_ok_of_len (code : Nat) (entry : FormatEntry) (w : Nat) (e : ℤ)
    (u : Nat) (bytes : List Byte)
    (hmem : (code, entry) ∈ Table_2904_bytes_format)
    (hw : entry.length = some w) (hlen : bytes.length = w) :
    ∃ v, (BleakGATTMarshaller.pack entry e u).unmarshall bytes = .ok v := by
  fin_cases hmem <;> simp only [FormatEntry.length] at hw <;>
    first
      | exact Option.noConfusion hw
      | (cases Option.some.inj hw
         unfold BleakGATTMarshaller.unmarshall
         simp only [hlen, eq_self_iff_true, if_true, if_pos, structUnpack1, ok_bind,
           applyConv, pyInt, pyFloat]
         by_cases he : e = 0
         · simp [he]
         · rw [if_pos he]
           exact pyScale_numeric_ok _ _ trivial)

/-- On a fixed-width table entry, `unmarshall` of a wrong-length input fails
on the `assert len(data_bytes) == self.length` line. -/
theorem unmarshall_err_of_len (code : Nat) (entry : FormatEntry) (w : Nat) (e : ℤ)
    (u : Nat) (bytes : List Byte)
    (hmem : (code, entry) ∈ Table_2904_bytes_format)
    (hw : entry.length = some w) (hlen : bytes.length ≠ w) :
    (BleakGATTMarshaller.pack entry e u).unmarshall bytes = .error .assertionError := by
  fin_cases hmem <;> simp only [FormatEntry.length] at hw <;>
    first
      | exact Option.noConfusion hw
      | (cases Option.some.inj hw
         unfold BleakGATTMarshaller.unmarshall
         simp [hlen])

/-- **C8** (confirmed).  For every table entry with a fixed byteWidth `w`
(every format code except 25 and 27) and every exponent and unit,
`unmarshall` fails with the `AssertionError` of
`assert len(data_bytes) == self.length` — the spec's ParseError/LengthMismatch
case — exactly when the input length differs from `w`, and returns normally
exactly when the length equals `w`. -/
theorem C8_unmarshall_length_guard :
    ∀ (code : Nat) (entry : FormatEntry) (w : Nat) (e : ℤ) (u : Nat) (bytes : List Byte),
      (code, entry) ∈ Table_2904_bytes_format →
      entry.length = some w →
      ((BleakGATTMarshaller.pack entry e u).unmarshall bytes = .error .assertionError ↔
        bytes.length ≠ w) ∧
      ((∃ v, (BleakGATTMarshaller.pack entry e u).unmarshall bytes = .ok v) ↔
        bytes.length = w) := by
  intro code entry w e u bytes hmem hw
  constructor
  · constructor
    · intro herr
      intro hlen
      obtain ⟨v, hv⟩ := unmarshall_ok_of_len code entry w e u bytes hmem hw hlen
      rw [hv] at herr
      exact Except.noConfusion herr
    · exact unmarshall_err_of_len code entry w e u bytes hmem hw
  · constructor
    · rintro ⟨v, hv⟩
      by_contra hlen
      rw [unmarshall_err_of_len code entry w e u bytes hmem hw hlen] at hv
      exact Except.noConfusion hv
    · exact unmarshall_ok_of_len code entry w e u bytes hmem hw

/-- Witness for C8: for format 6 (width 2), a 3-byte input trips the length
assert while the 2-byte input `E8 03` unmarshalls normally. -/
theorem C8_unmarshall_length_guard_witness :
    ((6, (⟨.toInt, .toInt, some 2, some .c_H⟩ : FormatEntry)) ∈ Table_2904_bytes_format) ∧
    (BleakGATTMarshaller.pack ⟨.toInt, .toInt, some 2, some .c_H⟩ 0 0).unmarshall
      [1, 2, 3] = .error .assertionError ∧
    (∃ v, (BleakGATTMarshaller.pack ⟨.toInt, .toInt, some 2, some .c_H⟩ 0 0).unmarshall
      [232, 3] = .ok v) :=
  ⟨by decide,
   (C8_unmarshall_length_guard 6 _ 2 0 0 [1, 2, 3] (by decide) rfl).1.mpr (by decide),
   (C8_unmarshall_length_guard 6 _ 2 0 0 [232, 3] (by decide) rfl).2.mpr (by decide)⟩

theorem byteVal_mk (a : Nat) (h : a < 256) : ((⟨a, h⟩ : Fin 256)).val = a := rfl

set_option maxHeartbeats 1000000 in
theorem utf8DecodeOne_encodeCp (n : Nat) (h0 : n < 0x110000)
    (hs : ¬(0xD800 ≤ n ∧ n < 0xE000)) (rest : List Byte) :
    ∃ b0 t, utf8EncodeCp n ++ rest = b0 :: t ∧ utf8DecodeOne b0 t = some (n, rest) := by
  rcases Nat.lt_or_ge n 0x80 with h1 | h1
  · refine ⟨⟨n, by omega⟩, rest, ?_, ?_⟩
    · rw [utf8EncodeCp, dif_pos h1]
      rfl
    · unfold utf8DecodeOne
      dsimp only
      split_ifs <;>
        first
          | (exfalso; omega)
          | (simp only [Option.some.injEq, Prod.mk.injEq, eq_self_iff_true, and_true]
             omega)
          | (simp only [Option.some.injEq, Prod.mk.injEq, eq_self_iff_true, and_true])
  rcases Nat.lt_or_ge n 0x800 with h2 | h2
  · refine ⟨⟨0xC0 + n / 64, by omega⟩, ⟨0x80 + n % 64, by omega⟩ :: rest, ?_, ?_⟩
    · rw [utf8EncodeCp, dif_neg (by omega), dif_pos h2]
      rfl
    · unfold utf8DecodeOne
      dsimp only
      split_ifs <;>
        first
          | (exfalso; omega)
          | (simp only [Option.some.injEq, Prod.mk.injEq, eq_self_iff_true, and_true]
             omega)
          | (simp only [Option.some.injEq, Prod.mk.injEq, eq_self_iff_true, and_true])
  rcases Nat.lt_or_ge n 0x10000 with h3 | h3
  · refine ⟨⟨0xE0 + n / 4096, by omega⟩,
      ⟨0x80 + n / 64 % 64, by omega⟩ :: ⟨0x80 + n % 64, by omega⟩ :: rest, ?_, ?_⟩
    · rw [utf8EncodeCp, dif_neg (by omega), dif_neg (by omega), dif_pos h3]
      rfl
    · unfold utf8DecodeOne
      dsimp only
      split_ifs <;>
        first
          | (exfalso; omega)
          | (simp only [Option.some.injEq, Prod.mk.injEq, eq_self_iff_true, and_true]
             omega)
          | (simp only [Option.some.injEq, Prod.mk.injEq, eq_self_iff_true, and_true])
  · refine ⟨⟨0xF0 + n / 262144, by omega⟩,
      ⟨0x80 + n / 4096 % 64, by omega⟩ :: ⟨0x80 + n / 64 % 64, by omega⟩ ::
        ⟨0x80 + n % 64, by omega⟩ :: rest, ?_, ?_⟩
    · rw [utf8EncodeCp, dif_neg (by omega), dif_neg (by omega), dif_neg (by omega),
        dif_pos (by omega)]
      rfl
    · unfold utf8DecodeOne
      dsimp only
      split_ifs <;>
        first
          | (exfalso; omega)
          | (simp only [Option.some.injEq, Prod.mk.injEq, eq_self_iff_true, and_true]
             omega)
          | (simp only [Option.some.injEq, Prod.mk.injEq, eq_self_iff_true, and_true])

/-- One-step unfolding of `utf8DecodeList` on a nonempty list. -/
theorem utf8DecodeList_cons (b0 : Byte) (rest : List Byte) :
    utf8DecodeList (b0 :: rest) =
      match utf8DecodeOne b0 rest with
      | some (n, rem) => (utf8DecodeList rem).map (n :: ·)
      | none => none := by
  rw [utf8DecodeList]
  split <;> rename_i heq <;> simp [heq]

/-- Decoding an encoded scalar sequence prepended to arbitrary bytes peels off
exactly that sequence. -/
theorem utf8DecodeList_encode_append (s : List Nat)
    (h : ∀ n ∈ s, validCp n = true) (rest : List Byte) :
    utf8DecodeList ((s.map utf8EncodeCp).flatten ++ rest) =
      (utf8DecodeList rest).map (s ++ ·) := by
  induction s with
  | nil => simp
  | cons n s' ih =>
    have hn : validCp n = true := h n (List.mem_cons_self n s')
    have hn' : n < 0x110000 ∧ ¬(0xD800 ≤ n ∧ n < 0xE000) := by
      have := hn
      simp only [validCp, Bool.and_eq_true, decide_eq_true_eq, Bool.not_eq_eq_eq_not,
        Bool.not_true] at this
      constructor
      · exact this.1
      · intro hc
        rcases this with ⟨_, h2⟩
        simp [decide_eq_true_eq] at h2
        omega
    obtain ⟨b0, t, happ, hdec⟩ :=
      utf8DecodeOne_encodeCp n hn'.1 hn'.2 ((s'.map utf8EncodeCp).flatten ++ rest)
    simp only [List.map_cons, List.flatten_cons, List.append_assoc]
    rw [happ, utf8DecodeList_cons, hdec]
    dsimp only
    rw [ih (fun m hm => h m (List.mem_cons_of_mem n hm))]
    cases utf8DecodeList rest <;> simp

/-- `bytes.decode('utf8')` inverts `str.encode('utf8')` on every sequence of
Unicode scalar values. -/
theorem utf8DecodeList_encode (s : List Nat) (h : s.all validCp = true) :
    utf8DecodeList ((s.map utf8EncodeCp).flatten) = some s := by
  have h' : ∀ n ∈ s, validCp n = true := by
    intro n hn
    exact List.all_eq_true.mp h n hn
  have := utf8DecodeList_encode_append s h' []
  rw [List.append_nil] at this
  rw [this]
  simp [utf8DecodeList]

/-- **C9** (confirmed).  For the format-25 (UTF8 string) codec, and every
exponent and unit, `unmarshall (marshall s) = s` for every text `s` of
Unicode scalar values: `marshall` is `str.encode('utf8')` and `unmarshall` is
`bytes.decode('utf8')`, applied on the `not self.length` early-return path, so
no byte-width check and no exponent scaling is ever applied. -/
theorem C9_utf8_string_roundtrip (s : List Nat) (e : ℤ) (u : Nat)
    (hv : s.all validCp = true) :
    Table_2904_bytes_format.lookup 25 = some ⟨.s2b, .b2s, none, none⟩ ∧
    ∃ b : List Byte,
      (BleakGATTMarshaller.pack ⟨.s2b, .b2s, none, none⟩ e u).marshall (.str s) =
        .ok (.bytes b) ∧
      (BleakGATTMarshaller.pack ⟨.s2b, .b2s, none, none⟩ e u).unmarshall b =
        .ok (.str s) := by
  refine ⟨by decide, (s.map utf8EncodeCp).flatten, ?_, ?_⟩
  · unfold BleakGATTMarshaller.marshall
    simp [applyConv, str2bytes, hv, Except.map]
  · unfold BleakGATTMarshaller.unmarshall
    simp [applyConv, bytes2str, utf8DecodeList_encode s hv, Except.map]

/-- Witness for C9: the text "H α € 😀" (scalars 72, 0x3B1, 0x20AC, 0x1F600,
covering all four UTF-8 widths) round-trips through the format-25 codec built
with a nonzero exponent. -/
theorem C9_utf8_string_roundtrip_witness :
    ([72, 0x3B1, 0x20AC, 0x1F600].all validCp = true) ∧
    (Table_2904_bytes_format.lookup 25 = some ⟨.s2b, .b2s, none, none⟩ ∧
    ∃ b : List Byte,
      (BleakGATTMarshaller.pack ⟨.s2b, .b2s, none, none⟩ (-2) 0).marshall
        (.str [72, 0x3B1, 0x20AC, 0x1F600]) = .ok (.bytes b) ∧
      (BleakGATTMarshaller.pack ⟨.s2b, .b2s, none, none⟩ (-2) 0).unmarshall b =
        .ok (.str [72, 0x3B1, 0x20AC, 0x1F600])) :=
  ⟨by decide, C9_utf8_string_roundtrip [72, 0x3B1, 0x20AC, 0x1F600] (-2) 0 (by decide)⟩

end Bleak2904
